import Mathlib

/-!
Verification development for the quizApp repository (src/app.py and
src/local_gemini_quiz.py).  The pure core — the JSON-region extractor
`_extract_json`, the MCQ schema normalization inside `request_mcqs`, the
grading function `grade_locally`, and the explanation normalization inside
`request_explanations` — is shallowly embedded below.  Strings are modelled
as `List Char`, Python ints as `Int`, Python `set` comparison as `Finset`
equality, and the results of the external `json.loads` call as an
`Option Json` oracle parameter (`none` = `json.JSONDecodeError`).
-/

namespace QuizApp

/-! ## Python string primitives -/

/-- Python whitespace class (`\s` and `str.strip`), ASCII range:
space, tab, newline, carriage return, vertical tab, form feed. -/
def pyIsSpace (c : Char) : Bool :=
  c = ' ' || c = '\t' || c = '\n' || c = '\r' || c = '\x0b' || c = '\x0c'

/-- Python `str.strip()`: drop leading and trailing whitespace. -/
def pyStrip (s : List Char) : List Char :=
  ((s.dropWhile pyIsSpace).reverse.dropWhile pyIsSpace).reverse

/-- Worker for `splitLines`, carrying the current (reversed) line. -/
def splitLinesAux : List Char → List Char → List (List Char)
  | [], acc => if acc.isEmpty then [] else [acc.reverse]
  | '\r' :: '\n' :: t, acc => acc.reverse :: splitLinesAux t []
  | '\r' :: t, acc => acc.reverse :: splitLinesAux t []
  | '\n' :: t, acc => acc.reverse :: splitLinesAux t []
  | c :: t, acc => splitLinesAux t (c :: acc)

/-- Python `str.splitlines()` for the common separators
`\n`, `\r`, `\r\n`; no entry for a trailing terminator and
`[]` on the empty string, as in Python. -/
def splitLines (s : List Char) : List (List Char) :=
  splitLinesAux s []

/-! ## Fence stripping: `re.sub(r"^```(?:json)?\s*|\s*```$", "", text, flags=re.MULTILINE)`

The regex alternation is resolved position by position, leftmost match
first, first alternative preferred; `^`/`$` match at line boundaries
because of `re.MULTILINE`. -/

/-- Does the text start with three backticks? -/
def hasTicks : List Char → Bool
  | a :: b :: c :: _ => a = '`' && b = '`' && c = '`'
  | _ => false

/-- Does the text start with the language tag `json`? -/
def hasJsonTag : List Char → Bool
  | a :: b :: c :: d :: _ => a = 'j' && b = 's' && c = 'o' && d = 'n'
  | _ => false

/-- `$` with `re.MULTILINE`: end of string or just before a `\n`. -/
def atLineEnd (s : List Char) : Bool :=
  s.isEmpty || s.head? = some '\n'

/-- Match length of `^```(?:json)?\s*|\s*```$` at the current position.
`atStart` says whether `^` matches here (start of string or
preceded by `\n`).  The first alternative is tried first, as in
Python `re`; in the second alternative the greedy `\s*` can only
take the full whitespace run, since a backtick is not whitespace. -/
def fenceMatch (atStart : Bool) (s : List Char) : Option Nat :=
  if atStart && hasTicks s then
    let r := s.drop 3
    if hasJsonTag r then some (7 + ((r.drop 4).takeWhile pyIsSpace).length)
    else some (3 + (r.takeWhile pyIsSpace).length)
  else
    let k := (s.takeWhile pyIsSpace).length
    if hasTicks (s.drop k) && atLineEnd (s.drop (k + 3)) then some (k + 3)
    else none

/-- One pass of `re.sub(..., "", ...)`: scan left to right, delete each
leftmost match, continue after it.  `fuel` only bounds the recursion and
is irrelevant whenever `fuel ≥ s.length` (each step consumes at least one
character).  The `^`-flag after a deleted match is determined by the last
character of the match, as positions refer to the original string. -/
def subAllF : Nat → Bool → List Char → List Char
  | 0, _, s => s
  | _ + 1, _, [] => []
  | f + 1, atStart, c :: rest =>
    match fenceMatch atStart (c :: rest) with
    | some L =>
        subAllF f (decide (((c :: rest).take L).getLast? = some '\n'))
          ((c :: rest).drop L)
    | none => c :: subAllF f (decide (c = '\n')) rest

/-- The fence-stripping `re.sub` applied to a whole text (at position 0 the
`^` anchor matches). -/
def fenceSub (s : List Char) : List Char :=
  subAllF s.length true s

/-- Python `str.find(ch)` as an `Option` (`none` for Python's `-1`). -/
def pyFind (ch : Char) (s : List Char) : Option Nat :=
  s.findIdx? (· = ch)

/-- Python `str.rfind(ch)` as an `Option` (`none` for Python's `-1`). -/
def pyRFind (ch : Char) (s : List Char) : Option Nat :=
  (s.reverse.findIdx? (· = ch)).map (fun j => s.length - 1 - j)

/-- `min([i for i in [text.find("{"), text.find("[")] if i != -1] or [-1])`. -/
def minStart (s : List Char) : Option Nat :=
  match pyFind '{' s, pyFind '[' s with
  | some i, some j => some (min i j)
  | some i, none => some i
  | none, some j => some j
  | none, none => none

/-- `max(text.rfind("}"), text.rfind("]"))` (Python `-1` = `none`;
`max` of a found index and `-1` is the found index). -/
def maxEnd (s : List Char) : Option Nat :=
  match pyRFind '}' s, pyRFind ']' s with
  | some i, some j => some (max i j)
  | some i, none => some i
  | none, some j => some j
  | none, none => none

/-- `_extract_json` from src/app.py:24-32 and src/local_gemini_quiz.py:49-64:
strip the text, delete fence markers, then slice from the first `{`/`[`
to the last `}`/`]` when that region is non-degenerate. -/
def extract_json (text : List Char) : List Char :=
  let t := fenceSub (pyStrip text)
  match minStart t with
  | none => t
  | some st =>
    match maxEnd t with
    | some en => if st ≤ en then (t.take (en + 1)).drop st else t
    | none => t

/-! ## Model of decoded JSON values (the result of `json.loads`)

`json.loads` itself is external library code; its result is passed to the
embedded normalizers as an `Option Json` oracle (`none` models a
`json.JSONDecodeError`).  JSON numbers are modelled as integers; the
claims under verification do not distinguish float payloads. -/

mutual
inductive Json where
  | null
  | bool (b : Bool)
  | num (n : Int)
  | str (s : List Char)
  | arr (xs : JsonArr)
  | obj (kvs : JsonObj)
inductive JsonArr where
  | nil
  | cons (hd : Json) (tl : JsonArr)
inductive JsonObj where
  | nil
  | cons (key : List Char) (val : Json) (tl : JsonObj)
end

def JsonArr.toList : JsonArr → List Json
  | .nil => []
  | .cons x tl => x :: tl.toList

def JsonObj.toList : JsonObj → List (List Char × Json)
  | .nil => []
  | .cons k v tl => (k, v) :: tl.toList

/-- Python's exceptions as they can surface from the embedded code.
`FormatError` is the spec's name for the JSON-decode failure
(`json.JSONDecodeError`, re-raised as `RuntimeError("Failed to parse
MCQ JSON: ...")` in src/local_gemini_quiz.py:110); `EmptyResultError` is
the spec's name for `RuntimeError("Model returned empty/invalid MCQs.")`
(src/local_gemini_quiz.py:130). -/
inductive PyError where
  | FormatError
  | EmptyResultError
  | TypeError
  | ValueError
  | AttributeError
deriving DecidableEq

mutual
/-- Python `repr` of a decoded-JSON value (list/dict rendering with
single-quoted strings, as CPython prints them). -/
def pyRepr : Json → List Char
  | .null => "None".toList
  | .bool true => "True".toList
  | .bool false => "False".toList
  | .num n => (toString n).toList
  | .str s => '\'' :: (s ++ ['\''])
  | .arr xs => '[' :: (pyReprArr xs ++ [']'])
  | .obj kvs => '{' :: (pyReprObj kvs ++ ['}'])
def pyReprArr : JsonArr → List Char
  | .nil => []
  | .cons x .nil => pyRepr x
  | .cons x tl => pyRepr x ++ ',' :: ' ' :: pyReprArr tl
def pyReprObj : JsonObj → List Char
  | .nil => []
  | .cons k v .nil => '\'' :: (k ++ '\'' :: ':' :: ' ' :: pyRepr v)
  | .cons k v tl =>
    '\'' :: (k ++ '\'' :: ':' :: ' ' :: pyRepr v) ++ ',' :: ' ' :: pyReprObj tl
end

/-- Python `str()` of a decoded-JSON value: the string itself for a `str`,
`repr` otherwise (which is what `str` gives on None/bool/int/list/dict). -/
def pyStr : Json → List Char
  | .str s => s
  | j => pyRepr j

/-- First value bound to `key`, or the default (Python dict keys are
unique, so first-match lookup is exact). -/
def lookupKey : List (List Char × Json) → List Char → Json → Json
  | [], _, dflt => dflt
  | (k, v) :: rest, key, dflt => if k = key then v else lookupKey rest key dflt

/-- Python `item.get(key, dflt)`: only dicts have `.get`; on any other
value an `AttributeError` is raised. -/
def pyGet (item : Json) (key : List Char) (dflt : Json) : Except PyError Json :=
  match item with
  | .obj kvs => .ok (lookupKey kvs.toList key dflt)
  | _ => .error .AttributeError

/-- Python `for x in j`: lists yield their elements, strings their
characters (as 1-character strings), dicts their keys; other values are
not iterable (`TypeError`). -/
def pyIterate : Json → Except PyError (List Json)
  | .arr xs => .ok xs.toList
  | .str s => .ok (s.map fun c => .str [c])
  | .obj kvs => .ok (kvs.toList.map fun kv => .str kv.1)
  | _ => .error .TypeError

def JsonArr.take : Nat → JsonArr → JsonArr
  | 0, _ => .nil
  | _, .nil => .nil
  | n + 1, .cons x tl => .cons x (JsonArr.take n tl)

/-- Python `j[:n]`: slices a list or string; a dict raises `TypeError`
(unhashable slice), and None/bool/int are not subscriptable
(`TypeError`). -/
def pySliceTo (j : Json) (n : Nat) : Except PyError Json :=
  match j with
  | .arr xs => .ok (.arr (JsonArr.take n xs))
  | .str s => .ok (.str (s.take n))
  | _ => .error .TypeError

/-- Value of a non-empty all-digit string. -/
def digitsVal (ds : List Char) : Option Nat :=
  if ds ≠ [] ∧ ds.all Char.isDigit then
    some (ds.foldl (fun acc c => 10 * acc + (c.toNat - '0'.toNat)) 0)
  else none

/-- Python `int(s)` on a stripped string: optional sign then digits. -/
def parseIntStr : List Char → Option Int
  | '-' :: ds => (digitsVal ds).map (fun v => -(v : Int))
  | '+' :: ds => (digitsVal ds).map (fun v => (v : Int))
  | ds => (digitsVal ds).map (fun v => (v : Int))

/-- Python `int(x)` on a decoded-JSON value: numbers pass through, bools
are 1/0, strings are parsed (whitespace allowed, `ValueError` if not an
integer literal), anything else raises `TypeError`. -/
def pyInt : Json → Except PyError Int
  | .num n => .ok n
  | .bool b => .ok (if b then 1 else 0)
  | .str s =>
    match parseIntStr (pyStrip s) with
    | some v => .ok v
    | none => .error .ValueError
  | _ => .error .TypeError

/-- `list(map(int, xs))`, with Python's left-to-right evaluation and
error propagation. -/
def mapPyInt : List Json → Except PyError (List Int)
  | [] => .ok []
  | x :: xs => do
    let v ← pyInt x
    let rest ← mapPyInt xs
    .ok (v :: rest)

/-- Python `sorted({...})` on ints: deduplicate, then sort ascending. -/
def dedupSort (l : List Int) : List Int :=
  List.insertionSort (fun a b => a ≤ b) l.dedup

/-! ## Schema normalization (`request_mcqs`, post-generation part)

src/local_gemini_quiz.py:112-132 and the identical logic in
src/app.py:58-71 (app.py dedup-sorts before the range filter and
local_gemini_quiz.py after; the composed value is the same). -/

/-- A normalized MCQ record. -/
structure MCQ where
  question : List Char
  options : List (List Char)
  correct_indices : List Int
deriving DecidableEq

/-- `str(item.get("question", "")).strip()`. -/
def getQuestion (item : Json) : Except PyError (List Char) := do
  let qj ← pyGet item ("question".toList) (.str [])
  .ok (pyStrip (pyStr qj))

/-- `[str(x).strip() for x in item.get("options", [])][:options_per_q]`. -/
def getOptions (item : Json) (n : Nat) : Except PyError (List (List Char)) := do
  let oj ← pyGet item ("options".toList) (.arr .nil)
  let oxs ← pyIterate oj
  .ok ((oxs.map (fun x => pyStrip (pyStr x))).take n)

/-- `list(map(int, item.get("correct_indices", [])))`. -/
def getCorrect (item : Json) : Except PyError (List Int) := do
  let cj ← pyGet item ("correct_indices".toList) (.arr .nil)
  let cxs ← pyIterate cj
  mapPyInt cxs

/-- `sorted({i for i in q["correct_indices"] if 0 <= i < options_per_q})`,
repaired to `[0]` when the filtered set is empty
(src/local_gemini_quiz.py:123-126). -/
def normCI (n : Nat) (correct : List Int) : List Int :=
  let filtered := dedupSort (correct.filter fun i => decide (0 ≤ i ∧ i < (n : Int)))
  if filtered = [] then [0] else filtered

/-- One iteration of the validation loop of `request_mcqs`
(src/local_gemini_quiz.py:114-127): build the record (the three coercions
run first and may raise), skip it (`none`) when the question is empty
(`not q["question"]`) or the option count is wrong, otherwise keep the
in-range dedup-sorted `correct_indices`, repaired to `[0]` when empty. -/
def normItem (n : Nat) (item : Json) : Except PyError (Option MCQ) := do
  let question ← getQuestion item
  let options ← getOptions item n
  let correct ← getCorrect item
  if question = [] ∨ options.length ≠ n then
    .ok none
  else
    .ok (some ⟨question, options, normCI n correct⟩)

/-- The whole `for item in data[:count]` loop, collecting surviving
records in order. -/
def normLoop (n : Nat) : List Json → Except PyError (List MCQ)
  | [] => .ok []
  | item :: rest => do
    let r ← normItem n item
    let tl ← normLoop n rest
    match r with
    | none => .ok tl
    | some q => .ok (q :: tl)

/-- `request_mcqs` after the generation call: `json.loads` failure
(oracle `none`) is the spec's `FormatError`; otherwise slice to `count`,
iterate, normalize each record, and fail with `EmptyResultError` when no
record survives (src/local_gemini_quiz.py:106-132, src/app.py:55-71). -/
def request_mcqs_post (parsed : Option Json) (count n : Nat) :
    Except PyError (List MCQ) :=
  match parsed with
  | none => .error .FormatError
  | some data => do
    let sliced ← pySliceTo data count
    let items ← pyIterate sliced
    let mcqs ← normLoop n items
    if mcqs = [] then .error .EmptyResultError else .ok mcqs

/-! ## Explanation normalization (`request_explanations`, post-response part)

src/local_gemini_quiz.py:217-227 and src/app.py:103-110.  `parsed` is the
`json.loads` oracle for the extracted region of `text`; `m` is
`len(mcqs)`. -/

/-- The tail of `request_explanations`: on parse failure fall back to the
non-blank stripped lines of the raw text, then pad with `""` when shorter
than `m` and truncate to `m`; `str(x)` coerces each entry.  A parse
result that is not a list or string raises `TypeError` (`len(data)` on
int/bool/None, `data += [...]` or `data[:m]` on a dict or a short
string). -/
def request_explanations_post (text : List Char) (parsed : Option Json)
    (m : Nat) : Except PyError (List (List Char)) :=
  match parsed with
  | none =>
    -- `data = [line.strip() for line in text.splitlines() if line.strip()]`;
    -- entries are already strings, so the final `str(x)` is the identity
    let data := ((splitLines text).map pyStrip).filter (fun l => !l.isEmpty)
    let padded :=
      if data.length < m then data ++ List.replicate (m - data.length) []
      else data
    .ok (padded.take m)
  | some j =>
    match j with
    | .arr xs =>
      let ys := xs.toList
      let padded :=
        if ys.length < m then ys ++ List.replicate (m - ys.length) (Json.str [])
        else ys
      .ok ((padded.take m).map pyStr)
    | .str s =>
      -- a long-enough string slices to its first m characters, iterated
      -- as 1-character strings; a short one hits `str += list`: TypeError
      if s.length < m then .error .TypeError
      else .ok ((s.take m).map (fun c => [c]))
    | _ =>
      -- dict: `+=`/slice raise TypeError; int/bool/None: len() raises
      .error .TypeError

/-! ## Local grading (`grade_locally`)

src/local_gemini_quiz.py:158-183 and the identical computation in
src/app.py:73-83 (field names from the former; app.py names the same
fields num/your/correct/ok). -/

structure GradeItem where
  number : Nat
  question : List Char
  options : List (List Char)
  your_indices : List Int
  correct_indices : List Int
  is_correct : Bool
deriving DecidableEq

structure GradeResult where
  results : List GradeItem
  score : Nat
  total : Nat
deriving DecidableEq

/-- One iteration of the grading loop: `set(ans) == set(q["correct_indices"])`
decides correctness; the echoed selections are `sorted(...)` (duplicates
kept, as Python `sorted` keeps them). -/
def gradeOne (idx : Nat) (q : MCQ) (ans : List Int) : GradeItem :=
  { number := idx
    question := q.question
    options := q.options
    your_indices := List.insertionSort (fun a b => a ≤ b) ans
    correct_indices := List.insertionSort (fun a b => a ≤ b) q.correct_indices
    is_correct := decide (ans.toFinset = q.correct_indices.toFinset) }

/-- The grading loop over `zip(mcqs, user_answers)` with 1-based
enumeration, returning the per-question records and the running
correct-count. -/
def gradeLoop (idx : Nat) : List (MCQ × List Int) → List GradeItem × Nat
  | [] => ([], 0)
  | (q, ans) :: rest =>
    let item := gradeOne idx q ans
    let t := gradeLoop (idx + 1) rest
    (item :: t.1, (if item.is_correct then 1 else 0) + t.2)

/-- `grade_locally`: `zip` silently truncates to the shorter of the two
lists; `total` is `len(mcqs)` regardless. -/
def grade_locally (mcqs : List MCQ) (user_answers : List (List Int)) :
    GradeResult :=
  let t := gradeLoop 1 (mcqs.zip user_answers)
  { results := t.1, score := t.2, total := mcqs.length }

/-! ## Helper lemmas: grading -/

lemma gradeLoop_fst_length (ps : List (MCQ × List Int)) :
    ∀ idx, (gradeLoop idx ps).1.length = ps.length := by
  induction ps with
  | nil => intro idx; simp [gradeLoop]
  | cons p rest ih => intro idx; simp [gradeLoop, ih (idx + 1)]

lemma gradeLoop_snd_countP (ps : List (MCQ × List Int)) :
    ∀ idx, (gradeLoop idx ps).2
      = (gradeLoop idx ps).1.countP (fun r => r.is_correct) := by
  induction ps with
  | nil => intro idx; simp [gradeLoop]
  | cons p rest ih =>
    intro idx
    obtain ⟨q, ans⟩ := p
    simp only [gradeLoop, List.countP_cons, ih (idx + 1)]
    by_cases h : (gradeOne idx q ans).is_correct = true
    · simp only [h, if_true]
      omega
    · simp only [h, if_false, Bool.false_eq_true]
      omega

lemma gradeLoop_get? (ps : List (MCQ × List Int)) :
    ∀ idx i, (gradeLoop idx ps).1.get? i
      = (ps.get? i).map (fun p => gradeOne (idx + i) p.1 p.2) := by
  induction ps with
  | nil => intro idx i; simp [gradeLoop]
  | cons p rest ih =>
    intro idx i
    obtain ⟨q, ans⟩ := p
    cases i with
    | zero => simp [gradeLoop]
    | succ j =>
      have harith : idx + 1 + j = idx + (j + 1) := by omega
      simp only [gradeLoop, List.get?_cons_succ, ih (idx + 1) j, harith]

lemma gradeLoop_setEq (R : List Int → List Int → Prop)
    (hR : ∀ l1 l2, R l1 l2 → l1.toFinset = l2.toFinset)
    (mcqs : List MCQ) :
    ∀ ans1 ans2 idx, List.Forall₂ R ans1 ans2 →
      (gradeLoop idx (mcqs.zip ans1)).1.map (fun r => r.is_correct)
        = (gradeLoop idx (mcqs.zip ans2)).1.map (fun r => r.is_correct) ∧
      (gradeLoop idx (mcqs.zip ans1)).2 = (gradeLoop idx (mcqs.zip ans2)).2 := by
  induction mcqs with
  | nil => intro ans1 ans2 idx _; simp [gradeLoop]
  | cons q ms ih =>
    intro ans1 ans2 idx h
    cases h with
    | nil => simp [gradeLoop]
    | cons ha ht =>
      rename_i a1 a2 t1 t2
      have hfin := hR a1 a2 ha
      have hone : (gradeOne idx q a1).is_correct = (gradeOne idx q a2).is_correct := by
        simp [gradeOne, hfin]
      obtain ⟨hmap, hcnt⟩ := ih t1 t2 (idx + 1) ht
      have hz1 : (q :: ms).zip (a1 :: t1) = (q, a1) :: ms.zip t1 := rfl
      have hz2 : (q :: ms).zip (a2 :: t2) = (q, a2) :: ms.zip t2 := rfl
      refine ⟨?_, ?_⟩
      · rw [hz1, hz2]
        simp only [gradeLoop, List.map_cons, hone, hmap]
      · rw [hz1, hz2]
        simp only [gradeLoop, hone, hcnt]

/-! ## Claim theorems: grading -/

/-- C1: for every MCQ list and selections list of equal length,
`grade_locally` marks each position correct exactly when the selection
set equals the correct-indices set (exact set equality), with `score` the
number of positions marked correct and `total` the number of MCQs. -/
theorem C1_grade_exact_set_equality (mcqs : List MCQ) (ans : List (List Int))
    (_h : ans.length = mcqs.length) :
    (grade_locally mcqs ans).total = mcqs.length ∧
    (grade_locally mcqs ans).score
      = (grade_locally mcqs ans).results.countP (fun r => r.is_correct) ∧
    ∀ i q sel, mcqs.get? i = some q → ans.get? i = some sel →
      ∃ r, (grade_locally mcqs ans).results.get? i = some r ∧
        (r.is_correct = true ↔ sel.toFinset = q.correct_indices.toFinset) := by
  refine ⟨rfl, gradeLoop_snd_countP _ 1, ?_⟩
  intro i q sel hq hs
  have hz : (mcqs.zip ans).get? i = some (q, sel) :=
    (List.get?_zip_eq_some mcqs ans (q, sel) i).mpr ⟨hq, hs⟩
  refine ⟨gradeOne (1 + i) q sel, ?_, ?_⟩
  · show (gradeLoop 1 (mcqs.zip ans)).1.get? i = _
    rw [gradeLoop_get? _ 1 i, hz, Option.map_some']
  · simp [gradeOne]

/-- Witness for C1 at a concrete input: one MCQ with correct set `{0, 2}`,
selection `[2, 0]`; the claim instance evaluates as stated. -/
theorem C1_grade_exact_set_equality_witness :
    ([[(2 : Int), 0]].length = [MCQ.mk "q?".toList ["a".toList, "b".toList, "c".toList] [0, 2]].length) ∧
    ((grade_locally [MCQ.mk "q?".toList ["a".toList, "b".toList, "c".toList] [0, 2]] [[(2 : Int), 0]]).total
      = [MCQ.mk "q?".toList ["a".toList, "b".toList, "c".toList] [0, 2]].length ∧
     (grade_locally [MCQ.mk "q?".toList ["a".toList, "b".toList, "c".toList] [0, 2]] [[(2 : Int), 0]]).score
      = (grade_locally [MCQ.mk "q?".toList ["a".toList, "b".toList, "c".toList] [0, 2]] [[(2 : Int), 0]]).results.countP (fun r => r.is_correct) ∧
     ∀ i q sel, [MCQ.mk "q?".toList ["a".toList, "b".toList, "c".toList] [0, 2]].get? i = some q →
        [[(2 : Int), 0]].get? i = some sel →
        ∃ r, (grade_locally [MCQ.mk "q?".toList ["a".toList, "b".toList, "c".toList] [0, 2]] [[(2 : Int), 0]]).results.get? i = some r ∧
          (r.is_correct = true ↔ sel.toFinset = q.correct_indices.toFinset)) :=
  ⟨rfl, C1_grade_exact_set_equality _ _ rfl⟩

/-- C3 counterexample: `grade_locally` on 2 MCQs and 1 selection does not
fail: it returns a result that was silently truncated to a single
per-question record (while `total` stays 2), contradicting the claimed
fail-fast assertion on mismatched lengths. -/
theorem C3_counterexample_silent_truncation :
    (grade_locally
        [MCQ.mk "q".toList ["a".toList, "b".toList] [0],
         MCQ.mk "r".toList ["a".toList, "b".toList] [1]]
        [[(0 : Int)]]).results.length = 1 ∧
    (grade_locally
        [MCQ.mk "q".toList ["a".toList, "b".toList] [0],
         MCQ.mk "r".toList ["a".toList, "b".toList] [1]]
        [[(0 : Int)]]).total = 2 := ⟨rfl, rfl⟩

/-- C3 amended: when the selections list's length differs from the MCQ
list's, `grade_locally` does not fail fast; `zip` silently truncates, so
the per-question results have length `min (len mcqs) (len selections)`
while `total` remains `len mcqs`. -/
theorem C3_amended_zip_truncates (mcqs : List MCQ) (ans : List (List Int)) :
    (grade_locally mcqs ans).results.length = min mcqs.length ans.length ∧
    (grade_locally mcqs ans).total = mcqs.length := by
  refine ⟨?_, rfl⟩
  show (gradeLoop 1 (mcqs.zip ans)).1.length = _
  rw [gradeLoop_fst_length _ 1, List.length_zip]

/-- C10: grading depends on each selection only through its set of
indices: selections lists related pointwise by set equality (reordering,
duplication) produce identical correctness flags, score and total. -/
theorem C10_grade_set_invariance (mcqs : List MCQ) (ans1 ans2 : List (List Int))
    (h : List.Forall₂ (fun l1 l2 => l1.toFinset = l2.toFinset) ans1 ans2) :
    (grade_locally mcqs ans1).results.map (fun r => r.is_correct)
      = (grade_locally mcqs ans2).results.map (fun r => r.is_correct) ∧
    (grade_locally mcqs ans1).score = (grade_locally mcqs ans2).score ∧
    (grade_locally mcqs ans1).total = (grade_locally mcqs ans2).total := by
  obtain ⟨hmap, hcnt⟩ :=
    gradeLoop_setEq (fun l1 l2 => l1.toFinset = l2.toFinset)
      (fun _ _ hx => hx) mcqs ans1 ans2 1 h
  exact ⟨hmap, hcnt, rfl⟩

/-- Witness for C10 at a concrete input: `[0, 2]` versus the reordered,
duplicated `[2, 0, 0]` give the same flags, score and total. -/
theorem C10_grade_set_invariance_witness :
    (grade_locally [MCQ.mk "q".toList ["a".toList, "b".toList, "c".toList] [0, 2]] [[(0 : Int), 2]]).results.map (fun r => r.is_correct)
      = (grade_locally [MCQ.mk "q".toList ["a".toList, "b".toList, "c".toList] [0, 2]] [[(2 : Int), 0, 0]]).results.map (fun r => r.is_correct) ∧
    (grade_locally [MCQ.mk "q".toList ["a".toList, "b".toList, "c".toList] [0, 2]] [[(0 : Int), 2]]).score
      = (grade_locally [MCQ.mk "q".toList ["a".toList, "b".toList, "c".toList] [0, 2]] [[(2 : Int), 0, 0]]).score ∧
    (grade_locally [MCQ.mk "q".toList ["a".toList, "b".toList, "c".toList] [0, 2]] [[(0 : Int), 2]]).total
      = (grade_locally [MCQ.mk "q".toList ["a".toList, "b".toList, "c".toList] [0, 2]] [[(2 : Int), 0, 0]]).total :=
  C10_grade_set_invariance _ _ _ (List.Forall₂.cons (by decide) List.Forall₂.nil)


/-! ## Helper lemmas: `Except` plumbing -/

lemma ok_bind {α β : Type} (a : α) (f : α → Except PyError β) :
    (Except.ok a >>= f) = f a := rfl

lemma error_bind {α β : Type} (e : PyError) (f : α → Except PyError β) :
    ((Except.error e : Except PyError α) >>= f) = Except.error e := rfl

lemma except_bind_ok {α β : Type} {e : Except PyError α} {f : α → Except PyError β}
    {b : β} (h : (e >>= f) = .ok b) : ∃ a, e = .ok a ∧ f a = .ok b := by
  cases e with
  | error x => rw [error_bind] at h; exact absurd h (by simp)
  | ok a => exact ⟨a, rfl, by rwa [ok_bind] at h⟩

lemma except_bind_ne_error {α β : Type} {e : Except PyError α}
    {f : α → Except PyError β} {err : PyError}
    (he : e ≠ .error err) (hf : ∀ a, f a ≠ .error err) :
    (e >>= f) ≠ .error err := by
  cases e with
  | error x =>
    rw [error_bind]
    intro hc
    apply he
    injection hc with h1
    rw [h1]
  | ok a => rw [ok_bind]; exact hf a

/-! ## Helper lemmas: the normalizer never produces `FormatError`
except on a parse failure -/

lemma pyGet_ne_format (item : Json) (key : List Char) (dflt : Json) :
    pyGet item key dflt ≠ .error .FormatError := by
  cases item <;> simp [pyGet]

lemma pyIterate_ne_format (j : Json) : pyIterate j ≠ .error .FormatError := by
  cases j <;> simp [pyIterate]

lemma pySliceTo_ne_format (j : Json) (n : Nat) :
    pySliceTo j n ≠ .error .FormatError := by
  cases j <;> simp [pySliceTo]

lemma pyInt_ne_format (j : Json) : pyInt j ≠ .error .FormatError := by
  cases j <;> simp [pyInt]
  case str s => cases parseIntStr (pyStrip s) <;> simp

lemma mapPyInt_ne_format (xs : List Json) : mapPyInt xs ≠ .error .FormatError := by
  induction xs with
  | nil => simp [mapPyInt]
  | cons x rest ih =>
    unfold mapPyInt
    refine except_bind_ne_error (pyInt_ne_format x) (fun v => ?_)
    refine except_bind_ne_error ih (fun l => ?_)
    simp

lemma getQuestion_ne_format (item : Json) :
    getQuestion item ≠ .error .FormatError := by
  unfold getQuestion
  exact except_bind_ne_error (pyGet_ne_format _ _ _) (fun _ => by simp)

lemma getOptions_ne_format (item : Json) (n : Nat) :
    getOptions item n ≠ .error .FormatError := by
  unfold getOptions
  refine except_bind_ne_error (pyGet_ne_format _ _ _) (fun oj => ?_)
  exact except_bind_ne_error (pyIterate_ne_format _) (fun _ => by simp)

lemma getCorrect_ne_format (item : Json) :
    getCorrect item ≠ .error .FormatError := by
  unfold getCorrect
  refine except_bind_ne_error (pyGet_ne_format _ _ _) (fun cj => ?_)
  exact except_bind_ne_error (pyIterate_ne_format _) (fun cxs => mapPyInt_ne_format cxs)

lemma normItem_ne_format (n : Nat) (item : Json) :
    normItem n item ≠ .error .FormatError := by
  unfold normItem
  refine except_bind_ne_error (getQuestion_ne_format _) (fun question => ?_)
  refine except_bind_ne_error (getOptions_ne_format _ _) (fun options => ?_)
  refine except_bind_ne_error (getCorrect_ne_format _) (fun correct => ?_)
  by_cases hc : question = [] ∨ options.length ≠ n <;> simp [hc]

lemma normLoop_ne_format (n : Nat) (items : List Json) :
    normLoop n items ≠ .error .FormatError := by
  induction items with
  | nil => simp [normLoop]
  | cons it rest ih =>
    unfold normLoop
    refine except_bind_ne_error (normItem_ne_format _ _) (fun r => ?_)
    refine except_bind_ne_error ih (fun tl => ?_)
    cases r <;> simp

/-! ## Helper lemmas: inversion of the normalizer on success -/

lemma request_some_eq (data : Json) (count n : Nat) :
    request_mcqs_post (some data) count n
      = (pySliceTo data count >>= fun sliced =>
          pyIterate sliced >>= fun items =>
          normLoop n items >>= fun mcqs =>
          if mcqs = [] then .error .EmptyResultError else .ok mcqs) := rfl

lemma normItem_char {n : Nat} {item : Json} {question : List Char}
    {options : List (List Char)} {correct : List Int}
    (hq : getQuestion item = .ok question)
    (ho : getOptions item n = .ok options)
    (hc : getCorrect item = .ok correct) :
    normItem n item =
      if question = [] ∨ options.length ≠ n then .ok none
      else .ok (some ⟨question, options, normCI n correct⟩) := by
  unfold normItem
  simp only [hq, ho, hc, ok_bind]

/-- The repaired correct-indices list satisfies the §3 invariant. -/
lemma normCI_spec (n : Nat) (correct : List Int) :
    normCI n correct ≠ [] ∧
    List.Sorted (· ≤ ·) (normCI n correct) ∧
    (normCI n correct).Nodup ∧
    (0 < n → ∀ i ∈ normCI n correct, 0 ≤ i ∧ i < (n : Int)) := by
  unfold normCI
  set filtered :=
    dedupSort (correct.filter fun i => decide (0 ≤ i ∧ i < (n : Int))) with hfil
  have hs : List.Sorted (· ≤ ·) filtered := List.sorted_insertionSort _ _
  have hnd : filtered.Nodup := by
    rw [hfil]
    unfold dedupSort
    exact ((List.perm_insertionSort _ _).nodup_iff).mpr (List.nodup_dedup _)
  have hmem : ∀ i ∈ filtered, 0 ≤ i ∧ i < (n : Int) := by
    intro i hi
    rw [hfil] at hi
    unfold dedupSort at hi
    rw [List.mem_insertionSort, List.mem_dedup, List.mem_filter] at hi
    exact of_decide_eq_true hi.2
  by_cases hemp : filtered = []
  · rw [if_pos hemp]
    refine ⟨by simp, List.sorted_singleton 0, List.nodup_singleton 0, ?_⟩
    intro hn i hi
    simp only [List.mem_singleton] at hi
    subst hi
    exact ⟨le_refl 0, by exact_mod_cast hn⟩
  · rw [if_neg hemp]
    exact ⟨hemp, hs, hnd, fun _ => hmem⟩

lemma normItem_ok_some {n : Nat} {item : Json} {q : MCQ}
    (h : normItem n item = .ok (some q)) :
    q.options.length = n ∧ q.correct_indices ≠ [] ∧
    List.Sorted (· ≤ ·) q.correct_indices ∧ q.correct_indices.Nodup ∧
    (0 < n → ∀ i ∈ q.correct_indices, 0 ≤ i ∧ i < (n : Int)) := by
  have h0 := h
  unfold normItem at h0
  obtain ⟨question, hq, h0⟩ := except_bind_ok h0
  obtain ⟨options, ho, h0⟩ := except_bind_ok h0
  obtain ⟨correct, hc, h0⟩ := except_bind_ok h0
  clear h0
  rw [normItem_char hq ho hc] at h
  by_cases hcond : question = [] ∨ options.length ≠ n
  · rw [if_pos hcond] at h
    exact absurd h (by simp)
  · rw [if_neg hcond] at h
    push_neg at hcond
    simp only [Except.ok.injEq, Option.some.injEq] at h
    subst h
    obtain ⟨hne, hs, hnd, hrange⟩ := normCI_spec n correct
    exact ⟨hcond.2, hne, hs, hnd, hrange⟩

lemma normItem_skip {n : Nat} {item : Json} {question : List Char}
    {options : List (List Char)} {correct : List Int}
    (hq : getQuestion item = .ok question)
    (ho : getOptions item n = .ok options)
    (hc : getCorrect item = .ok correct)
    (hlen : options.length ≠ n) :
    normItem n item = .ok none := by
  rw [normItem_char hq ho hc, if_pos (Or.inr hlen)]

lemma normItem_repair {n : Nat} {item : Json} {question : List Char}
    {options : List (List Char)} {correct : List Int}
    (hq : getQuestion item = .ok question)
    (ho : getOptions item n = .ok options)
    (hc : getCorrect item = .ok correct)
    (hqne : question ≠ [])
    (hlen : options.length = n)
    (hfil : correct.filter (fun i => decide (0 ≤ i ∧ i < (n : Int))) = []) :
    normItem n item = .ok (some ⟨question, options, [0]⟩) := by
  rw [normItem_char hq ho hc, if_neg (by push_neg; exact ⟨hqne, hlen⟩)]
  unfold normCI
  rw [hfil]
  rfl

lemma normLoop_ok_mem {n : Nat} :
    ∀ {items : List Json} {l : List MCQ}, normLoop n items = .ok l →
      ∀ q ∈ l, ∃ item ∈ items, normItem n item = .ok (some q) := by
  intro items
  induction items with
  | nil =>
    intro l h q hq
    simp only [normLoop, Except.ok.injEq] at h
    subst h
    simp at hq
  | cons it rest ih =>
    intro l h q hq
    unfold normLoop at h
    obtain ⟨r, hr, h⟩ := except_bind_ok h
    obtain ⟨tl, htl, h⟩ := except_bind_ok h
    cases r with
    | none =>
      simp only [Except.ok.injEq] at h
      subst h
      obtain ⟨item, hmem, hitem⟩ := ih htl q hq
      exact ⟨item, List.mem_cons_of_mem _ hmem, hitem⟩
    | some q' =>
      simp only [Except.ok.injEq] at h
      subst h
      rcases List.mem_cons.mp hq with hq | hq
      · subst hq
        exact ⟨it, List.mem_cons_self _ _, hr⟩
      · obtain ⟨item, hmem, hitem⟩ := ih htl q hq
        exact ⟨item, List.mem_cons_of_mem _ hmem, hitem⟩

lemma request_ok_inv {parsed : Option Json} {count n : Nat} {l : List MCQ}
    (h : request_mcqs_post parsed count n = .ok l) :
    ∃ data sliced items, parsed = some data ∧
      pySliceTo data count = .ok sliced ∧ pyIterate sliced = .ok items ∧
      normLoop n items = .ok l ∧ l ≠ [] := by
  cases parsed with
  | none => exact absurd h (by simp [request_mcqs_post])
  | some data =>
    rw [request_some_eq] at h
    obtain ⟨sliced, hs, h⟩ := except_bind_ok h
    obtain ⟨items, hi, h⟩ := except_bind_ok h
    obtain ⟨mcqs, hm, h⟩ := except_bind_ok h
    by_cases he : mcqs = []
    · rw [if_pos he] at h
      exact absurd h (by simp)
    · rw [if_neg he] at h
      simp only [Except.ok.injEq] at h
      subst h
      exact ⟨data, sliced, items, rfl, hs, hi, hm, he⟩

/-! ## Claim theorems: schema normalization -/

/-- C2: with a positive options-per-question count (the configuration
surface guarantees at least 2), a record whose coerced, range-filtered
`correct_indices` set is empty is repaired to `[0]` rather than dropped,
and every record in the normalizer's output carries a non-empty, sorted,
duplicate-free `correct_indices` list with every element in
`[0, optionsPerQuestion)`. -/
theorem C2_empty_key_repair_and_invariant (n : Nat) (hn : 0 < n) :
    (∀ (parsed : Option Json) (count : Nat) (l : List MCQ),
      request_mcqs_post parsed count n = .ok l →
      ∀ q ∈ l, q.correct_indices ≠ [] ∧
        List.Sorted (· ≤ ·) q.correct_indices ∧ q.correct_indices.Nodup ∧
        ∀ i ∈ q.correct_indices, 0 ≤ i ∧ i < (n : Int)) ∧
    (∀ (item : Json) (question : List Char) (options : List (List Char))
        (correct : List Int),
      getQuestion item = .ok question →
      getOptions item n = .ok options →
      getCorrect item = .ok correct →
      question ≠ [] → options.length = n →
      correct.filter (fun i => decide (0 ≤ i ∧ i < (n : Int))) = [] →
      normItem n item = .ok (some ⟨question, options, [0]⟩)) := by
  constructor
  · intro parsed count l h q hq
    obtain ⟨data, sliced, items, _, _, _, hloop, _⟩ := request_ok_inv h
    obtain ⟨item, _, hitem⟩ := normLoop_ok_mem hloop q hq
    obtain ⟨_, hne, hsorted, hnodup, hrange⟩ := normItem_ok_some hitem
    exact ⟨hne, hsorted, hnodup, hrange hn⟩
  · intro item question options correct hq ho hc hqne hlen hfil
    exact normItem_repair hq ho hc hqne hlen hfil

/-- Witness for C2 at a concrete input (n = 4): a record whose only
correct index 7 is filtered out is repaired to `[0]`, and the produced
batch carries the invariant. -/
theorem C2_empty_key_repair_and_invariant_witness :
    (∀ q ∈ [MCQ.mk "q?".toList ["a".toList, "b".toList, "c".toList, "d".toList] [0]],
      q.correct_indices ≠ [] ∧
        List.Sorted (· ≤ ·) q.correct_indices ∧ q.correct_indices.Nodup ∧
        ∀ i ∈ q.correct_indices, 0 ≤ i ∧ i < ((4 : Nat) : Int)) ∧
    normItem 4
        (.obj (.cons "question".toList (.str "q?".toList)
          (.cons "options".toList (.arr (.cons (.str "a".toList) (.cons (.str "b".toList)
            (.cons (.str "c".toList) (.cons (.str "d".toList) .nil)))))
          (.cons "correct_indices".toList (.arr (.cons (.num 7) .nil)) .nil))))
      = .ok (some ⟨"q?".toList, ["a".toList, "b".toList, "c".toList, "d".toList], [0]⟩) := by
  constructor
  · exact (C2_empty_key_repair_and_invariant 4 (by decide)).1
      (some (.arr (.cons (.obj (.cons "question".toList (.str "q?".toList)
        (.cons "options".toList (.arr (.cons (.str "a".toList) (.cons (.str "b".toList)
          (.cons (.str "c".toList) (.cons (.str "d".toList) .nil)))))
        (.cons "correct_indices".toList (.arr (.cons (.num 7) .nil)) .nil)))) .nil)))
      5 _ rfl
  · exact (C2_empty_key_repair_and_invariant 4 (by decide)).2
      _ _ _ _ rfl rfl rfl (by decide) rfl rfl

/-- C5: every record surviving normalization has exactly
`optionsPerQuestion` options (after per-option trimming and truncation of
the raw sequence), and a record whose trimmed-truncated option count is
not exactly that is dropped (`none`), never padded. -/
theorem C5_option_count_invariant (n : Nat) :
    (∀ (parsed : Option Json) (count : Nat) (l : List MCQ),
      request_mcqs_post parsed count n = .ok l →
      ∀ q ∈ l, q.options.length = n) ∧
    (∀ (item : Json) (question : List Char) (options : List (List Char))
        (correct : List Int),
      getQuestion item = .ok question →
      getOptions item n = .ok options →
      getCorrect item = .ok correct →
      options.length ≠ n →
      normItem n item = .ok none) := by
  constructor
  · intro parsed count l h q hq
    obtain ⟨data, sliced, items, _, _, _, hloop, _⟩ := request_ok_inv h
    obtain ⟨item, _, hitem⟩ := normLoop_ok_mem hloop q hq
    exact (normItem_ok_some hitem).1
  · intro item question options correct hq ho hc hlen
    exact normItem_skip hq ho hc hlen

/-- Witness for C5 at a concrete input (n = 4): the surviving record of a
well-formed batch has 4 options, and a 2-option record is dropped. -/
theorem C5_option_count_invariant_witness :
    (∀ q ∈ [MCQ.mk "q?".toList ["a".toList, "b".toList, "c".toList, "d".toList] [1]],
      q.options.length = 4) ∧
    normItem 4
        (.obj (.cons "question".toList (.str "q?".toList)
          (.cons "options".toList (.arr (.cons (.str "a".toList) (.cons (.str "b".toList) .nil)))
          (.cons "correct_indices".toList (.arr (.cons (.num 1) .nil)) .nil))))
      = .ok none := by
  constructor
  · exact (C5_option_count_invariant 4).1
      (some (.arr (.cons (.obj (.cons "question".toList (.str "q?".toList)
        (.cons "options".toList (.arr (.cons (.str "a".toList) (.cons (.str "b".toList)
          (.cons (.str "c".toList) (.cons (.str "d".toList) .nil)))))
        (.cons "correct_indices".toList (.arr (.cons (.num 1) .nil)) .nil)))) .nil)))
      5 _ rfl
  · exact (C5_option_count_invariant 4).2 _ _ _ _ rfl rfl rfl (by decide)

/-- C7 counterexample: the text `"5"` is valid JSON but not an array of
objects; the claim requires a `FormatError`, yet the code raises a
`TypeError` (slicing an `int`), a different, unhandled exception. -/
theorem C7_counterexample_non_array_json :
    request_mcqs_post (some (.num 5)) 5 4 = .error .TypeError ∧
    PyError.TypeError ≠ PyError.FormatError := ⟨rfl, by decide⟩

/-- C7 amended: the normalizer fails with `FormatError` exactly when the
extracted text is not parseable as JSON at all (`json.loads` raised); a
payload that parses but is not an array of objects instead surfaces a
`TypeError` or `AttributeError`. -/
theorem C7_amended_format_error_iff_parse_failure (parsed : Option Json)
    (count n : Nat) :
    request_mcqs_post parsed count n = .error .FormatError ↔ parsed = none := by
  constructor
  · intro h
    cases parsed with
    | none => rfl
    | some data =>
      exfalso
      revert h
      show request_mcqs_post (some data) count n ≠ .error .FormatError
      rw [request_some_eq]
      refine except_bind_ne_error (pySliceTo_ne_format _ _) (fun sliced => ?_)
      refine except_bind_ne_error (pyIterate_ne_format _) (fun items => ?_)
      refine except_bind_ne_error (normLoop_ne_format _ _) (fun mcqs => ?_)
      by_cases he : mcqs = [] <;> simp [he]
  · intro h
    subst h
    rfl

/-- C8: when slicing and iteration succeed but zero records survive the
per-record filtering, `request_mcqs` fails with `EmptyResultError`; a
successful return is never the empty list. -/
theorem C8_empty_result_hard_failure (count n : Nat) :
    (∀ (data sliced : Json) (items : List Json),
      pySliceTo data count = .ok sliced →
      pyIterate sliced = .ok items →
      normLoop n items = .ok [] →
      request_mcqs_post (some data) count n = .error .EmptyResultError) ∧
    (∀ (parsed : Option Json) (l : List MCQ),
      request_mcqs_post parsed count n = .ok l → l ≠ []) := by
  constructor
  · intro data sliced items hs hi hloop
    rw [request_some_eq]
    simp only [hs, hi, hloop, ok_bind]
    simp
  · intro parsed l h
    obtain ⟨_, _, _, _, _, _, _, hne⟩ := request_ok_inv h
    exact hne

/-- Witness for C8 at a concrete input: a single record with an empty
question is dropped, zero records survive, and the call fails with
`EmptyResultError`. -/
theorem C8_empty_result_hard_failure_witness :
    request_mcqs_post
        (some (.arr (.cons (.obj (.cons "question".toList (.str []) .nil)) .nil)))
        5 4
      = .error .EmptyResultError :=
  (C8_empty_result_hard_failure 5 4).1
    (.arr (.cons (.obj (.cons "question".toList (.str []) .nil)) .nil))
    (.arr (.cons (.obj (.cons "question".toList (.str []) .nil)) .nil))
    [.obj (.cons "question".toList (.str []) .nil)]
    rfl rfl rfl

/-! ## Helper lemmas: explanation normalization -/

lemma padTake_length {α : Type} (data : List α) (pad : α) (m : Nat) :
    ((if data.length < m then data ++ List.replicate (m - data.length) pad
      else data).take m).length = m := by
  by_cases h : data.length < m
  · rw [if_pos h]
    rw [List.length_take, List.length_append, List.length_replicate]
    omega
  · rw [if_neg h]
    rw [List.length_take]
    omega

/-! ## Claim theorems: explanation normalization -/

/-- C6 counterexample: on raw text `"5"` — valid JSON that parses to the
int 5 — `request_explanations` raises a `TypeError` to the caller
(`len(5)` is not defined), contradicting the claim that it never raises:
the parse-failure fallback only catches `json.JSONDecodeError`
(src/local_gemini_quiz.py:220) resp. exceptions of `json.loads` itself
(src/app.py:104-107), not a successfully parsed non-sequence. -/
theorem C6_counterexample_non_list_parse :
    request_explanations_post ("5".toList) (some (.num 5)) 1
      = .error .TypeError := rfl

/-- C6 amended: whenever `request_explanations` returns (in particular
always on parse failure, where it falls back to the non-blank stripped
lines of the raw text, padded and truncated), it returns exactly `m`
strings; but when the extracted region parses to a JSON value that is
neither an array nor a long-enough string, a `TypeError` propagates to
the caller instead. -/
theorem C6_amended_length_invariant (text : List Char) (parsed : Option Json)
    (m : Nat) :
    (∀ l, request_explanations_post text parsed m = .ok l → l.length = m) ∧
    (∃ l, request_explanations_post text none m = .ok l ∧ l.length = m) := by
  constructor
  · intro l h
    cases parsed with
    | none =>
      simp only [request_explanations_post, Except.ok.injEq] at h
      subst h
      exact padTake_length _ _ _
    | some j =>
      cases j with
      | arr xs =>
        simp only [request_explanations_post, Except.ok.injEq] at h
        subst h
        rw [List.length_map]
        exact padTake_length _ _ _
      | str s =>
        simp only [request_explanations_post] at h
        by_cases hlt : s.length < m
        · rw [if_pos hlt] at h
          exact absurd h (by simp)
        · rw [if_neg hlt] at h
          simp only [Except.ok.injEq] at h
          subst h
          rw [List.length_map, List.length_take]
          omega
      | null => exact absurd h (by simp [request_explanations_post])
      | bool b => exact absurd h (by simp [request_explanations_post])
      | num v => exact absurd h (by simp [request_explanations_post])
      | obj kvs => exact absurd h (by simp [request_explanations_post])
  · exact ⟨_, rfl,
      padTake_length (((splitLines text).map pyStrip).filter (fun l => !l.isEmpty)) [] m⟩

/-- Witness for C6 at a concrete input: an empty parsed array against
2 MCQs is padded to exactly 2 (empty) strings. -/
theorem C6_amended_length_invariant_witness :
    ([([] : List Char), []] : List (List Char)).length = 2 :=
  (C6_amended_length_invariant ("x".toList) (some (.arr .nil)) 2).1
    [[], []] rfl

/-! ## Helper lemmas: fence stripping -/

lemma hasTicks_false {c : Char} (rest : List Char) (h : c ≠ '`') :
    hasTicks (c :: rest) = false := by
  cases rest with
  | nil => rfl
  | cons b t =>
    cases t with
    | nil => rfl
    | cons d u => simp [hasTicks, h]

lemma hasTicks_iff {t : List Char} :
    hasTicks t = true ↔ ∃ u, t = '`' :: '`' :: '`' :: u := by
  constructor
  · intro h
    match t, h with
    | a :: b :: c :: u, h =>
      simp only [hasTicks, Bool.and_eq_true, decide_eq_true_eq] at h
      obtain ⟨⟨h1, h2⟩, h3⟩ := h
      exact ⟨u, by rw [h1, h2, h3]⟩
  · rintro ⟨u, rfl⟩
    simp [hasTicks]

lemma fenceMatch_pos {a : Bool} {s : List Char} {L : Nat}
    (h : fenceMatch a s = some L) : 1 ≤ L := by
  simp only [fenceMatch] at h
  split at h
  · split at h <;> (simp only [Option.some.injEq] at h; omega)
  · split at h
    · simp only [Option.some.injEq] at h
      omega
    · exact absurd h (by simp)

lemma subAllF_nil (f : Nat) (flag : Bool) : subAllF f flag [] = [] := by
  cases f <;> rfl

lemma subAllF_step_match {f : Nat} {flag : Bool} {c : Char} {rest : List Char}
    {L : Nat} (h : fenceMatch flag (c :: rest) = some L) :
    subAllF (f + 1) flag (c :: rest)
      = subAllF f (decide (((c :: rest).take L).getLast? = some '\n'))
          ((c :: rest).drop L) := by
  simp only [subAllF, h]

lemma subAllF_step_none {f : Nat} {flag : Bool} {c : Char} {rest : List Char}
    (h : fenceMatch flag (c :: rest) = none) :
    subAllF (f + 1) flag (c :: rest)
      = c :: subAllF f (decide (c = '\n')) rest := by
  simp only [subAllF, h]

lemma subAllF_fuel :
    ∀ (f1 f2 : Nat) (flag : Bool) (s : List Char),
      s.length ≤ f1 → s.length ≤ f2 →
      subAllF f1 flag s = subAllF f2 flag s := by
  intro f1
  induction f1 with
  | zero =>
    intro f2 flag s h1 h2
    have hs : s = [] := List.eq_nil_of_length_eq_zero (Nat.le_zero.mp h1)
    subst hs
    cases f2 <;> rfl
  | succ f ih =>
    intro f2 flag s h1 h2
    cases s with
    | nil => exact (subAllF_nil _ _).trans (subAllF_nil _ _).symm
    | cons c rest =>
      cases f2 with
      | zero =>
        exfalso
        simp only [List.length_cons] at h2
        omega
      | succ g =>
        cases hm : fenceMatch flag (c :: rest) with
        | none =>
          rw [subAllF_step_none hm, subAllF_step_none hm]
          have hr : rest.length ≤ f := by
            simp only [List.length_cons] at h1
            omega
          have hr2 : rest.length ≤ g := by
            simp only [List.length_cons] at h2
            omega
          rw [ih g _ rest hr hr2]
        | some L =>
          rw [subAllF_step_match hm, subAllF_step_match hm]
          have hL := fenceMatch_pos hm
          have hd : ((c :: rest).drop L).length ≤ f := by
            rw [List.length_drop, List.length_cons]
            simp only [List.length_cons] at h1
            omega
          have hd2 : ((c :: rest).drop L).length ≤ g := by
            rw [List.length_drop, List.length_cons]
            simp only [List.length_cons] at h2
            omega
          rw [ih g _ _ hd hd2]

lemma fenceMatch_none_clean {flag : Bool} {c : Char} {rest : List Char}
    (hws : pyIsSpace c = false) (hbt : c ≠ '`') :
    fenceMatch flag (c :: rest) = none := by
  simp only [fenceMatch, hasTicks_false rest hbt, Bool.and_false,
    Bool.false_eq_true, if_false, List.takeWhile_cons, hws]
  simp [hasTicks_false rest hbt]

lemma subAllF_clean_append (a : List Char)
    (ha : ∀ c ∈ a, pyIsSpace c = false ∧ c ≠ '`') :
    ∀ (rest : List Char) (flag : Bool) (f : Nat),
      a.length + rest.length ≤ f →
      subAllF f flag (a ++ rest)
        = a ++ subAllF (f - a.length) (if a = [] then flag else false) rest := by
  induction a with
  | nil =>
    intro rest flag f h
    simp
  | cons c a' ih =>
    intro rest flag f h
    cases f with
    | zero =>
      exfalso
      simp only [List.length_cons] at h
      omega
    | succ g =>
      obtain ⟨hws, hbt⟩ := ha c (List.mem_cons_self _ _)
      have hmatch : fenceMatch flag ((c :: a') ++ rest) = none := by
        rw [List.cons_append]
        exact fenceMatch_none_clean hws hbt
      rw [List.cons_append] at hmatch ⊢
      rw [subAllF_step_none hmatch]
      have hc : decide (c = '\n') = false := by
        apply decide_eq_false
        intro hcn
        subst hcn
        exact absurd hws (by simp [pyIsSpace])
      rw [hc]
      rw [ih (fun x hx => ha x (List.mem_cons_of_mem _ hx)) rest false g
        (by simp only [List.length_cons] at h; omega)]
      have hif : (if a' = [] then false else false) = false := ite_self false
      have hif2 : (if c :: a' = [] then flag else false) = false := by
        rw [if_neg (List.cons_ne_nil c a')]
      rw [hif, hif2, List.cons_append]
      have hfuel : g + 1 - (c :: a').length = g - a'.length := by
        simp only [List.length_cons]
        omega
      rw [hfuel]

lemma fenceMatch_none_of_safe {flag : Bool} {c : Char} {rest : List Char}
    (hnl : '\n' ∉ c :: rest)
    (hlast : (c :: rest).getLast? ≠ some '`')
    (hhead : flag = true → c ≠ '`') :
    fenceMatch flag (c :: rest) = none := by
  have hticks : (flag && hasTicks (c :: rest)) = false := by
    cases flag with
    | false => rfl
    | true => rw [hasTicks_false rest (hhead rfl), Bool.and_false]
  simp only [fenceMatch, hticks, Bool.false_eq_true, if_false]
  set k := ((c :: rest).takeWhile pyIsSpace).length with hk
  by_cases ht : hasTicks ((c :: rest).drop k) = true
  · obtain ⟨u, hu⟩ := hasTicks_iff.mp ht
    have hdd : (c :: rest).drop (k + 3) = u := by
      rw [← List.drop_drop, hu]
      rfl
    have hEnd : atLineEnd ((c :: rest).drop (k + 3)) = false := by
      rw [hdd]
      cases u with
      | nil =>
        exfalso
        apply hlast
        have hsplit : c :: rest = (c :: rest).take k ++ ['`', '`', '`'] := by
          conv_lhs => rw [← List.take_append_drop k (c :: rest)]
          rw [hu]
        rw [hsplit, List.getLast?_append_cons]
        rfl
      | cons x u' =>
        have hx : x ≠ '\n' := by
          intro hx
          apply hnl
          have hmem : x ∈ (c :: rest).drop (k + 3) := by
            rw [hdd]
            exact List.mem_cons_self _ _
          rw [← hx]
          exact List.mem_of_mem_drop hmem
        simp [atLineEnd, hx]
    rw [ht, hEnd]
    simp
  · simp only [Bool.not_eq_true] at ht
    rw [ht]
    simp

lemma subAllF_id_of_safe :
    ∀ (s : List Char) (flag : Bool) (f : Nat), s.length ≤ f → '\n' ∉ s →
      s.getLast? ≠ some '`' → (flag = true → s.head? ≠ some '`') →
      subAllF f flag s = s := by
  intro s
  induction s with
  | nil => intro flag f _ _ _ _; exact subAllF_nil _ _
  | cons c rest ih =>
    intro flag f hf hnl hlast hhead
    cases f with
    | zero =>
      exfalso
      simp only [List.length_cons] at hf
      omega
    | succ g =>
      have hh : flag = true → c ≠ '`' := by
        intro hfl hc
        exact hhead hfl (by rw [hc, List.head?_cons])
      rw [subAllF_step_none (fenceMatch_none_of_safe hnl hlast hh)]
      have hcnl : c ≠ '\n' := by
        intro hc
        exact hnl (by rw [← hc]; exact List.mem_cons_self _ _)
      rw [decide_eq_false hcnl]
      congr 1
      have hlast' : rest.getLast? ≠ some '`' := by
        cases rest with
        | nil => simp
        | cons d t => rwa [List.getLast?_cons_cons] at hlast
      exact ih false g
        (by simp only [List.length_cons] at hf; omega)
        (fun hm => hnl (List.mem_cons_of_mem _ hm))
        hlast'
        (by intro hfl; exact absurd hfl (by simp))

lemma pyStrip_id {s : List Char}
    (hh : ∀ x, s.head? = some x → pyIsSpace x = false)
    (hl : ∀ x, s.getLast? = some x → pyIsSpace x = false) :
    pyStrip s = s := by
  unfold pyStrip
  have h1 : s.dropWhile pyIsSpace = s := by
    cases s with
    | nil => rfl
    | cons c t =>
      rw [List.dropWhile_cons, if_neg (by simp [hh c rfl])]
  rw [h1]
  have h2 : s.reverse.dropWhile pyIsSpace = s.reverse := by
    cases hr : s.reverse with
    | nil => rfl
    | cons c t =>
      have hc : s.getLast? = some c := by
        rw [← List.head?_reverse, hr, List.head?_cons]
      rw [List.dropWhile_cons, if_neg (by simp [hl c hc])]
  rw [h2, List.reverse_reverse]

/-! ## Helper lemmas: bracket slicing -/

lemma minStart_of_head {t : List Char}
    (h : t.head? = some '{' ∨ t.head? = some '[') :
    minStart t = some 0 := by
  cases t with
  | nil => simp at h
  | cons a rest =>
    rcases h with h | h <;>
      (rw [List.head?_cons] at h; injection h with h; subst h)
    · have h1 : pyFind '{' ('{' :: rest) = some 0 := by
        simp [pyFind, List.findIdx?_cons]
      cases h2 : pyFind '[' ('{' :: rest) with
      | none => simp [minStart, h1, h2]
      | some j => simp [minStart, h1, h2]
    · have h1 : pyFind '[' ('[' :: rest) = some 0 := by
        simp [pyFind, List.findIdx?_cons]
      cases h2 : pyFind '{' ('[' :: rest) with
      | none => simp [minStart, h1, h2]
      | some j => simp [minStart, h1, h2]

lemma pyRFind_le {ch : Char} {t : List Char} {j : Nat}
    (h : pyRFind ch t = some j) : j ≤ t.length - 1 := by
  unfold pyRFind at h
  cases hf : t.reverse.findIdx? (fun x => decide (x = ch)) with
  | none => rw [hf] at h; simp at h
  | some i =>
    rw [hf] at h
    simp only [Option.map_some', Option.some.injEq] at h
    omega

lemma pyRFind_last {t : List Char} {c : Char} (h : t.getLast? = some c) :
    pyRFind c t = some (t.length - 1) := by
  unfold pyRFind
  have hrev : t.reverse.head? = some c := by rw [List.head?_reverse]; exact h
  cases hrt : t.reverse with
  | nil => rw [hrt] at hrev; simp at hrev
  | cons x xs =>
    rw [hrt] at hrev
    rw [List.head?_cons] at hrev
    injection hrev with hx
    rw [hx]
    simp [List.findIdx?_cons]

lemma maxEnd_of_last {t : List Char}
    (h : t.getLast? = some '}' ∨ t.getLast? = some ']') :
    maxEnd t = some (t.length - 1) := by
  rcases h with h | h
  · have h1 := pyRFind_last h
    cases h2 : pyRFind ']' t with
    | none => simp [maxEnd, h1, h2]
    | some j =>
      have hj := pyRFind_le h2
      simp only [maxEnd, h1, h2, Option.some.injEq]
      omega
  · have h1 := pyRFind_last h
    cases h2 : pyRFind '}' t with
    | none => simp [maxEnd, h1, h2]
    | some j =>
      have hj := pyRFind_le h2
      simp only [maxEnd, h1, h2, Option.some.injEq]
      omega

/-! ## Claim theorems: extraction idempotence -/

/-- C9 counterexample: the 4-character text `"{}"` (a syntactically valid
compact JSON string literal, no prose, no fences) is not a fixed point of
extraction: the slicer finds the inner `{`/`}` and returns `{}`. -/
theorem C9_counterexample_scalar_string :
    extract_json ("\"{}\"".toList) = "{}".toList ∧
    extract_json ("\"{}\"".toList) ≠ "\"{}\"".toList := by
  constructor
  · decide
  · decide

/-- C9 amended: extraction is idempotent on every single-line text that
begins with `{` or `[` and ends with `}` or `]` — in particular on every
syntactically valid compact JSON array or object with no surrounding
prose or fences.  (It can fail on scalar JSON texts such as the string
literal `"{}"`.) -/
theorem C9_amended_idempotent_on_arrays_objects (t : List Char)
    (hne : t ≠ []) (hnl : '\n' ∉ t)
    (hhead : t.head? = some '{' ∨ t.head? = some '[')
    (hlast : t.getLast? = some '}' ∨ t.getLast? = some ']') :
    extract_json t = t := by
  have hh : ∀ x, t.head? = some x → pyIsSpace x = false := by
    intro x hx
    rcases hhead with h | h <;>
      (rw [h] at hx; injection hx with hx; rw [← hx]; rfl)
  have hl : ∀ x, t.getLast? = some x → pyIsSpace x = false := by
    intro x hx
    rcases hlast with h | h <;>
      (rw [h] at hx; injection hx with hx; rw [← hx]; rfl)
  have hstrip : pyStrip t = t := pyStrip_id hh hl
  have hsub : fenceSub t = t := by
    unfold fenceSub
    apply subAllF_id_of_safe t true t.length le_rfl hnl
    · intro hc
      rcases hlast with h | h <;>
        (rw [h] at hc; injection hc with hc; exact absurd hc (by decide))
    · intro _ hc
      rcases hhead with h | h <;>
        (rw [h] at hc; injection hc with hc; exact absurd hc (by decide))
  have hlen : t.length - 1 + 1 = t.length := by
    have := List.length_pos.mpr hne
    omega
  simp only [extract_json, hstrip, hsub, minStart_of_head hhead,
    maxEnd_of_last hlast]
  rw [if_pos (Nat.zero_le _), hlen, List.take_length, List.drop_zero]

/-- Witness for C9 at a concrete input: the compact JSON array `[1,2]`
is a fixed point of extraction. -/
theorem C9_amended_idempotent_witness :
    extract_json ("[1,2]".toList) = "[1,2]".toList :=
  C9_amended_idempotent_on_arrays_objects ("[1,2]".toList)
    (by decide) (by decide) (Or.inr (by decide)) (Or.inr (by decide))

lemma fenceMatch_open {c : Char} (t : List Char) (hws : pyIsSpace c = false) :
    fenceMatch true ('`' :: '`' :: '`' :: 'j' :: 's' :: 'o' :: 'n' :: '\n' :: c :: t) = some 8 := by
  have hticks : hasTicks ('`' :: '`' :: '`' :: 'j' :: 's' :: 'o' :: 'n' :: '\n' :: c :: t) = true := by
    simp [hasTicks]
  have htag : hasJsonTag ('j' :: 's' :: 'o' :: 'n' :: '\n' :: c :: t) = true := by
    simp [hasJsonTag]
  simp only [fenceMatch, hticks, htag, Bool.and_true, if_true]
  show (if hasJsonTag ('j' :: 's' :: 'o' :: 'n' :: '\n' :: c :: t) = true then
      some (7 + ((('\n' :: c :: t).takeWhile pyIsSpace).length))
    else some (3 + ((('j' :: 's' :: 'o' :: 'n' :: '\n' :: c :: t).takeWhile pyIsSpace).length))) = some 8
  rw [if_pos htag]
  rw [List.takeWhile_cons, if_pos (by rfl : pyIsSpace '\n' = true)]
  rw [List.takeWhile_cons, if_neg (by simp [hws])]
  rfl

lemma fenceMatch_close (t : List Char) :
    fenceMatch false ('\n' :: '`' :: '`' :: '`' :: '\n' :: t) = some 4 := by
  simp only [fenceMatch, Bool.false_and, Bool.false_eq_true, if_false]
  show (if (hasTicks (('\n' :: '`' :: '`' :: '`' :: '\n' :: t).drop
        ((('\n' :: '`' :: '`' :: '`' :: '\n' :: t).takeWhile pyIsSpace).length)) &&
      atLineEnd (('\n' :: '`' :: '`' :: '`' :: '\n' :: t).drop
        ((('\n' :: '`' :: '`' :: '`' :: '\n' :: t).takeWhile pyIsSpace).length + 3))) = true then
      some ((('\n' :: '`' :: '`' :: '`' :: '\n' :: t).takeWhile pyIsSpace).length + 3)
    else none) = some 4
  have hk : (('\n' :: '`' :: '`' :: '`' :: '\n' :: t).takeWhile pyIsSpace).length = 1 := by
    rw [List.takeWhile_cons, if_pos (by rfl : pyIsSpace '\n' = true)]
    rw [List.takeWhile_cons, if_neg (by decide : ¬pyIsSpace '`' = true)]
    rfl
  rw [hk]
  rw [if_pos (by simp [hasTicks, atLineEnd] :
    (hasTicks (('\n' :: '`' :: '`' :: '`' :: '\n' :: t).drop 1) &&
      atLineEnd (('\n' :: '`' :: '`' :: '`' :: '\n' :: t).drop (1 + 3))) = true)]

lemma fenceMatch_nl_clean {d : Char} (t : List Char)
    (hws : pyIsSpace d = false) (hbt : d ≠ '`') :
    fenceMatch false ('\n' :: d :: t) = none := by
  simp only [fenceMatch, Bool.false_and, Bool.false_eq_true, if_false]
  have hk : (('\n' :: d :: t).takeWhile pyIsSpace).length = 1 := by
    rw [List.takeWhile_cons, if_pos (by rfl : pyIsSpace '\n' = true)]
    rw [List.takeWhile_cons, if_neg (by simp [hws])]
    rfl
  rw [hk]
  rw [if_neg]
  simp [hasTicks_false t hbt]

lemma subAllF_step_match' {flag : Bool} {c : Char} {rest : List Char} {L f : Nat}
    (h : fenceMatch flag (c :: rest) = some L)
    (hf : (c :: rest).length ≤ f + 1) :
    subAllF (f + 1) flag (c :: rest)
      = subAllF ((c :: rest).drop L).length
          (decide (((c :: rest).take L).getLast? = some '\n')) ((c :: rest).drop L) := by
  rw [subAllF_step_match h]
  have hL := fenceMatch_pos h
  apply subAllF_fuel
  · rw [List.length_drop]
    simp only [List.length_cons] at hf ⊢
    omega
  · exact le_rfl

lemma subAllF_step_none' {flag : Bool} {c : Char} {rest : List Char} {f : Nat}
    (h : fenceMatch flag (c :: rest) = none)
    (hf : (c :: rest).length ≤ f + 1) :
    subAllF (f + 1) flag (c :: rest)
      = c :: subAllF rest.length (decide (c = '\n')) rest := by
  rw [subAllF_step_none h]
  congr 1
  apply subAllF_fuel
  · simp only [List.length_cons] at hf
    omega
  · exact le_rfl

lemma subAllF_clean_append' (a rest : List Char) (flag : Bool)
    (ha : ∀ c ∈ a, pyIsSpace c = false ∧ c ≠ '`') (hane : a ≠ []) :
    subAllF (a ++ rest).length flag (a ++ rest)
      = a ++ subAllF rest.length false rest := by
  rw [subAllF_clean_append a ha rest flag _ (by rw [List.length_append])]
  rw [if_neg hane]
  have hlen : (a ++ rest).length - a.length = rest.length := by
    rw [List.length_append]
    omega
  rw [hlen]


/-! ## Claim theorems: fence stripping -/

/-- C4 counterexample: in `"a\n```\nb"` the fence marker sits strictly in
the interior of the text (line 2 of 3), yet the fence-stripping step
deletes it: `re.MULTILINE` makes `^`/`$` match at every line boundary,
so stripping is not limited to the start and end of the text. -/
theorem C4_counterexample_interior_fence :
    fenceSub (pyStrip ("a\n```\nb".toList)) = "a\nb".toList ∧
    fenceSub (pyStrip ("a\n```\nb".toList)) ≠ "a\n```\nb".toList := by
  constructor
  · decide
  · decide

/-- C4 amended: the fence-stripping step is line-anchored, not
text-anchored: a leading fence marker with a language tag is removed, a
trailing fence marker is removed, and a fence marker occupying its own
interior line is removed as well (together with the whitespace the greedy
`\s*` absorbs).  Shown for any single-line, fence-free, whitespace-free
segments `a` and `b` around an interior fence line. -/
theorem C4_amended_line_anchored_fences (a b : List Char) (hane : a ≠ []) (hbne : b ≠ [])
    (ha : ∀ c ∈ a, pyIsSpace c = false ∧ c ≠ '`')
    (hb : ∀ c ∈ b, pyIsSpace c = false ∧ c ≠ '`') :
    fenceSub (pyStrip ("```json\n".toList ++ a ++ "\n```\n".toList ++ b ++ "\n```".toList))
      = a ++ '\n' :: b := by
  obtain ⟨c, a', rfl⟩ : ∃ c a', a = c :: a' := by
    cases a with
    | nil => exact absurd rfl hane
    | cons c a' => exact ⟨c, a', rfl⟩
  obtain ⟨d, b', rfl⟩ : ∃ d b', b = d :: b' := by
    cases b with
    | nil => exact absurd rfl hbne
    | cons d b' => exact ⟨d, b', rfl⟩
  obtain ⟨hwsc, hbtc⟩ := ha c (List.mem_cons_self _ _)
  obtain ⟨hwsd, hbtd⟩ := hb d (List.mem_cons_self _ _)
  simp only [List.append_assoc]
  show fenceSub (pyStrip
      ('`' :: '`' :: '`' :: 'j' :: 's' :: 'o' :: 'n' :: '\n' ::
        (c :: (a' ++ ('\n' :: '`' :: '`' :: '`' :: '\n' ::
          (d :: (b' ++ ('\n' :: '`' :: '`' :: '`' :: ([] : List Char))))))))) = _
  have hlast : ('`' :: '`' :: '`' :: 'j' :: 's' :: 'o' :: 'n' :: '\n' ::
      (c :: (a' ++ ('\n' :: '`' :: '`' :: '`' :: '\n' ::
        (d :: (b' ++ ('\n' :: '`' :: '`' :: '`' :: ([] : List Char)))))))).getLast?
      = some '`' := by
    show ((['`', '`', '`', 'j', 's', 'o', 'n', '\n', c] ++
      (a' ++ ('\n' :: '`' :: '`' :: '`' :: '\n' ::
        (d :: (b' ++ ('\n' :: '`' :: '`' :: '`' :: ([] : List Char))))))).getLast?) = some '`'
    rw [List.getLast?_append_of_ne_nil _
      (List.append_ne_nil_of_right_ne_nil _ (List.cons_ne_nil _ _))]
    rw [List.getLast?_append_of_ne_nil _ (List.cons_ne_nil _ _)]
    show ((['\n', '`', '`', '`', '\n', d] ++
      (b' ++ ('\n' :: '`' :: '`' :: '`' :: ([] : List Char)))).getLast?) = some '`'
    rw [List.getLast?_append_of_ne_nil _
      (List.append_ne_nil_of_right_ne_nil _ (List.cons_ne_nil _ _))]
    rw [List.getLast?_append_of_ne_nil _ (List.cons_ne_nil _ _)]
    rfl
  have hstrip : pyStrip
      ('`' :: '`' :: '`' :: 'j' :: 's' :: 'o' :: 'n' :: '\n' ::
        (c :: (a' ++ ('\n' :: '`' :: '`' :: '`' :: '\n' ::
          (d :: (b' ++ ('\n' :: '`' :: '`' :: '`' :: ([] : List Char))))))))
      = ('`' :: '`' :: '`' :: 'j' :: 's' :: 'o' :: 'n' :: '\n' ::
        (c :: (a' ++ ('\n' :: '`' :: '`' :: '`' :: '\n' ::
          (d :: (b' ++ ('\n' :: '`' :: '`' :: '`' :: ([] : List Char)))))))) := by
    apply pyStrip_id
    · intro x hx
      rw [List.head?_cons] at hx
      injection hx with hx
      rw [← hx]
      rfl
    · intro x hx
      rw [hlast] at hx
      injection hx with hx
      rw [← hx]
      rfl
  rw [hstrip]
  show subAllF
      ('`' :: '`' :: '`' :: 'j' :: 's' :: 'o' :: 'n' :: '\n' ::
        (c :: (a' ++ ('\n' :: '`' :: '`' :: '`' :: '\n' ::
          (d :: (b' ++ ('\n' :: '`' :: '`' :: '`' :: ([] : List Char)))))))).length
      true
      ('`' :: '`' :: '`' :: 'j' :: 's' :: 'o' :: 'n' :: '\n' ::
        (c :: (a' ++ ('\n' :: '`' :: '`' :: '`' :: '\n' ::
          (d :: (b' ++ ('\n' :: '`' :: '`' :: '`' :: ([] : List Char))))))))
      = (c :: a') ++ '\n' :: (d :: b')
  simp only [List.length_cons]
  rw [subAllF_step_match'
    (fenceMatch_open (a' ++ ('\n' :: '`' :: '`' :: '`' :: '\n' ::
      (d :: (b' ++ ('\n' :: '`' :: '`' :: '`' :: ([] : List Char)))))) hwsc)
    (by simp)]
  show subAllF
      ((c :: a') ++ ('\n' :: '`' :: '`' :: '`' :: '\n' ::
        (d :: (b' ++ ('\n' :: '`' :: '`' :: '`' :: ([] : List Char)))))).length
      true
      ((c :: a') ++ ('\n' :: '`' :: '`' :: '`' :: '\n' ::
        (d :: (b' ++ ('\n' :: '`' :: '`' :: '`' :: ([] : List Char))))))
      = (c :: a') ++ '\n' :: (d :: b')
  rw [subAllF_clean_append' (c :: a') _ true ha (List.cons_ne_nil c a')]
  congr 1
  show subAllF
      ('\n' :: '`' :: '`' :: '`' :: '\n' ::
        (d :: (b' ++ ('\n' :: '`' :: '`' :: '`' :: ([] : List Char))))).length
      false
      ('\n' :: '`' :: '`' :: '`' :: '\n' ::
        (d :: (b' ++ ('\n' :: '`' :: '`' :: '`' :: ([] : List Char)))))
      = '\n' :: (d :: b')
  simp only [List.length_cons]
  rw [subAllF_step_match'
    (fenceMatch_close (d :: (b' ++ ('\n' :: '`' :: '`' :: '`' :: ([] : List Char)))))
    (by simp)]
  show subAllF
      ('\n' :: (d :: (b' ++ ('\n' :: '`' :: '`' :: '`' :: ([] : List Char))))).length
      false
      ('\n' :: (d :: (b' ++ ('\n' :: '`' :: '`' :: '`' :: ([] : List Char)))))
      = '\n' :: (d :: b')
  simp only [List.length_cons]
  rw [subAllF_step_none'
    (fenceMatch_nl_clean (b' ++ ('\n' :: '`' :: '`' :: '`' :: ([] : List Char))) hwsd hbtd)
    (by simp)]
  congr 1
  show subAllF
      ((d :: b') ++ ('\n' :: '`' :: '`' :: '`' :: ([] : List Char))).length
      true
      ((d :: b') ++ ('\n' :: '`' :: '`' :: '`' :: ([] : List Char)))
      = d :: b'
  rw [subAllF_clean_append' (d :: b') _ true hb (List.cons_ne_nil d b')]
  rw [show subAllF ('\n' :: '`' :: '`' :: '`' :: ([] : List Char)).length false
      ('\n' :: '`' :: '`' :: '`' :: ([] : List Char)) = [] from rfl]
  exact List.append_nil _

/-- Witness for C4 at a concrete input: `a = "x"`, `b = "y"`; the leading
tagged fence, the interior fence line and the trailing fence are all
removed. -/
theorem C4_amended_line_anchored_fences_witness :
    fenceSub (pyStrip ("```json\n".toList ++ "x".toList ++ "\n```\n".toList
        ++ "y".toList ++ "\n```".toList))
      = "x".toList ++ '\n' :: "y".toList :=
  C4_amended_line_anchored_fences ("x".toList) ("y".toList)
    (by decide) (by decide) (by decide) (by decide)

end QuizApp
